import Mathlib

/-!
Verification development for the roam2obs converter (src/main.go).

The Go program converts a Roam Research JSON export into a directory of
markdown files.  Its core is a three-pass algorithm over pages of nested
blocks: pass 1 normalizes daily-note titles and builds a global uid→block
index (`pass1`, `collectBlocks`, `parseRoamDate`), pass 2 performs a
discovery rendering whose only effect is to populate the set of referenced
uids (`pass2`), and pass 3 renders every page to files (`pass3`,
`expandChildren`, `replaceBlockRefs`, `replaceDayLinks`).

This file is a shallow embedding of that program.  Conventions:
  * Go strings are Lean `String`s; scanning works on `List Char`
    (`String.data`).  The Go regexes (package `regexp`, RE2) are embedded
    as explicit scanning functions, documented at each definition; `.`
    matches any character except a newline, and matches are leftmost.
  * Go maps are association lists: the uid→block map `uidBlock` prepends
    on insert and `idxFind` returns the most recent binding (last write
    wins); the set `referencedUID` is a duplicate-free `List String`.
  * The source's unbounded `for {}` rewrite loops are given explicit fuel;
    `Err.fuel` marks fuel exhaustion (the Go code would still be looping).
    Likewise the tree recursion of `expandChildren` takes fuel so that all
    definitions reduce by computation.
  * Output to the filesystem is modelled as the list of (path, content)
    pairs written, in order; `filepath.Join` is modelled as joining with
    "/".  Lines printed by `fmt.Println` for unresolved references are
    returned as a diagnostic list by `replaceBlockRefs`.
  * Struct fields that the program never reads (timestamps, emails,
    emojis, text alignment) are elided from the data model.
-/

/-! ## Data model: `Page` and `Child` (src/main.go `type Page`, `type Child`).

A `Child` holds a full copy of its owning `Page` (field `Page Page` in Go),
so the two types are mutually recursive; `ChildList` is a specialized list
so that all recursion stays structural. -/

mutual

inductive Page : Type where
  | mk : String → ChildList → Bool → Page

inductive Child : Type where
  | mk : String → String → ChildList → Nat → Page → Child

inductive ChildList : Type where
  | nil : ChildList
  | cons : Child → ChildList → ChildList

end

/-- Field `Title` of `Page`. -/
def Page.title : Page → String
  | .mk t _ _ => t

/-- Field `RawChildren` of `Page` (method `Children()`). -/
def Page.children : Page → ChildList
  | .mk _ c _ => c

/-- Field `IsDaily` of `Page`. -/
def Page.isDaily : Page → Bool
  | .mk _ _ d => d

/-- Field `UID` of `Child`. -/
def Child.uid : Child → String
  | .mk u _ _ _ _ => u

/-- Field `String` of `Child` (the raw block text). -/
def Child.text : Child → String
  | .mk _ s _ _ _ => s

/-- Field `RawChildren` of `Child` (method `Children()`). -/
def Child.children : Child → ChildList
  | .mk _ _ c _ _ => c

/-- Field `Heading` of `Child`. -/
def Child.heading : Child → Nat
  | .mk _ _ _ h _ => h

/-- Field `Page` of `Child`: the embedded copy of the owning page. -/
def Child.page : Child → Page
  | .mk _ _ _ _ p => p

/-- Assignment `page.Title = t` on a copy. -/
def Page.setTitle : Page → String → Page
  | .mk _ c d, t => .mk t c d

/-- Assignment `page.IsDaily = b` on a copy. -/
def Page.setIsDaily : Page → Bool → Page
  | .mk t c _, b => .mk t c b

/-- Assignment `child.Page = p` on a copy. -/
def Child.setPage : Child → Page → Child
  | .mk u s c h _, p => .mk u s c h p

/-- Length of a `ChildList` (Go `len(children)`). -/
def clLength : ChildList → Nat
  | .nil => 0
  | .cons _ rest => clLength rest + 1

/-- The zero value of `Page` in Go (pages embedded in freshly decoded
blocks before any assignment). -/
def pageZero : Page := .mk "" .nil false

/-! ## Small string helpers -/

/-- Go `strings.Repeat s n`. -/
def srepeat (s : String) : Nat → String
  | 0 => ""
  | n + 1 => s ++ srepeat s n

/-- Decimal value of a digit string. -/
def digitsVal (cs : List Char) : Nat :=
  cs.foldl (fun a c => a * 10 + (c.toNat - 48)) 0

/-- Zero-pad a number to a given width, as Go `time.Format` does for the
layouts `2006`, `01` and `02`. -/
def padZ (w : Nat) (n : Nat) : String :=
  let s := toString n
  srepeat "0" (w - s.length) ++ s

/-- Go `strings.Join lines "\n"` (src/main.go:86). -/
def joinNL (lines : List String) : String :=
  String.intercalate "\n" lines

/-- Go `strings.ContainsRune s '\n'` (src/main.go:144). -/
def containsNL (s : String) : Bool :=
  s.data.contains '\n'

/-- Character-list core of `strings.ReplaceAll s "\n" ("\n" + pfx)`. -/
def replNL : List Char → List Char → List Char
  | [], _ => []
  | c :: rest, pfx =>
    if c = '\n' then '\n' :: (pfx ++ replNL rest pfx) else c :: replNL rest pfx

/-- Go `strings.ReplaceAll s "\n" ("\n" + pfx)` (src/main.go:145). -/
def replaceNLs (s pfx : String) : String :=
  String.mk (replNL s.data pfx.data)

/-! ## Regex embeddings.

The four regexes of src/main.go:440-446 are embedded as scanners over
`List Char`.  All matching is leftmost, as in RE2; `.` never matches a
newline. -/

/-- Strip a literal pattern off the front of a character list. -/
def stripPre : List Char → List Char → Option (List Char)
  | [], rest => some rest
  | p :: ps, c :: rest => if c = p then stripPre ps rest else none
  | _ :: _, [] => none

/-- Match `.{9}` (exactly nine characters, none of them a newline),
returning the nine characters and the remainder. -/
def takeNine : List Char → Option (List Char × List Char)
  | c1 :: c2 :: c3 :: c4 :: c5 :: c6 :: c7 :: c8 :: c9 :: rest =>
    if [c1, c2, c3, c4, c5, c6, c7, c8, c9].all (fun c => c ≠ '\n')
    then some ([c1, c2, c3, c4, c5, c6, c7, c8, c9], rest)
    else none
  | _ => none

/-- Try a wrapper pattern `opn` + `.{9}` + `cls` at the current position;
on success return the nine-character capture group and the remainder. -/
def wrapAt (opn cls : List Char) (cs : List Char) : Option (List Char × List Char) :=
  match stripPre opn cs with
  | none => none
  | some r1 =>
    match takeNine r1 with
    | none => none
    | some (uid, r2) =>
      match stripPre cls r2 with
      | none => none
      | some r3 => some (uid, r3)

/-- Leftmost-match scanner: walk the text left to right, trying `f` at
every position; on the first success return the text before the match, the
payload, and the text after the match. -/
def scanFor (f : List Char → Option (List Char × List Char)) :
    List Char → List Char → Option (List Char × List Char × List Char)
  | acc, cs =>
    match f cs with
    | some (a, rest) => some (acc.reverse, a, rest)
    | none =>
      match cs with
      | [] => none
      | c :: cs' => scanFor f (c :: acc) cs'

/-- Opening literal of `reBlockEmbed` (`{{embed: ((` written with escaped
braces). -/
def embedOpen : List Char := "\x7b\x7bembed: ((".data

/-- Closing literal of `reBlockEmbed` and `reBlockMentions`. -/
def embedClose : List Char := "))\x7d\x7d".data

/-- Opening literal of `reBlockMentions`. -/
def mentionsOpen : List Char := "\x7b\x7bmentions: ((".data

/-- Opening literal of `reBlockRef`. -/
def refOpen : List Char := "((".data

/-- Closing literal of `reBlockRef`. -/
def refClose : List Char := "))".data

/-- Leftmost match of `reBlockEmbed` with its capture group: returns
(text before, nine-character uid group, text after). -/
def findBlockEmbed (cs : List Char) : Option (List Char × List Char × List Char) :=
  scanFor (wrapAt embedOpen embedClose) [] cs

/-- Leftmost match of `reBlockMentions`. -/
def findBlockMentions (cs : List Char) : Option (List Char × List Char × List Char) :=
  scanFor (wrapAt mentionsOpen embedClose) [] cs

/-- Leftmost match of `reBlockRef`. -/
def findBlockRef (cs : List Char) : Option (List Char × List Char × List Char) :=
  scanFor (wrapAt refOpen refClose) [] cs

/-! ### The `reDayLink` regex.

`reDayLink` is `(\[\[)([January|February|...|December [0-9]+[a-z]{2}, [0-9]{4})(\]\])`.
The bracket after the second `(` opens a character CLASS, which is closed
by the `]` of `[0-9`; the class therefore contains every letter used in a
month name, `|`, the space, `[` and the digits.  The second group is
`[class]+[a-z]{2}, [0-9]{4}`. -/

/-- The characters of the accidental character class in `reDayLink`. -/
def dayClassChars : List Char :=
  ['J', 'F', 'M', 'A', 'S', 'O', 'N', 'D',
   'a', 'b', 'c', 'e', 'g', 'h', 'i', 'l', 'm', 'n', 'o', 'p', 'r', 's',
   't', 'u', 'v', 'y', '|', ' ', '[']

/-- Membership in the `reDayLink` character class. -/
def isDayClass (c : Char) : Bool :=
  dayClassChars.contains c || c.isDigit

/-- Match the fixed tail `[a-z]{2}, [0-9]{4}]]` of `reDayLink`, returning
the eight characters belonging to the capture group and the remainder
after `]]`. -/
def dayTail : List Char → Option (List Char × List Char)
  | a :: b :: ',' :: ' ' :: d1 :: d2 :: d3 :: d4 :: ']' :: ']' :: rest =>
    if a.isLower && b.isLower && d1.isDigit && d2.isDigit && d3.isDigit && d4.isDigit
    then some ([a, b, ',', ' ', d1, d2, d3, d4], rest)
    else none
  | _ => none

/-- Greedy matching of `[class]+` followed by the tail: try the longest
class-only run first and back off, as RE2 does for a greedy `+`. -/
def dayTryN : Nat → List Char → Option (List Char × List Char)
  | 0, _ => none
  | n + 1, body =>
    if (body.take (n + 1)).all isDayClass then
      match dayTail (body.drop (n + 1)) with
      | some (t8, rest) => some (body.take (n + 1) ++ t8, rest)
      | none => dayTryN n body
    else dayTryN n body

/-- Try `reDayLink` at the current position: `[[`, then the greedy group,
returning the capture group (`match[4]:match[5]`) and the remainder. -/
def dayLinkAt : List Char → Option (List Char × List Char)
  | '[' :: '[' :: body => dayTryN body.length body
  | _ => none

/-- Leftmost match of `reDayLink`. -/
def findDayLink (cs : List Char) : Option (List Char × List Char × List Char) :=
  scanFor dayLinkAt [] cs

/-! ### The anchored `reDaily` regex and date handling. -/

/-- The twelve month names, in the order of the alternation in `reDaily`. -/
def monthNames : List String :=
  ["January", "February", "March", "April", "May", "June", "July",
   "August", "September", "October", "November", "December"]

/-- Leading run of digits. -/
def takeDigits : List Char → List Char × List Char
  | [] => ([], [])
  | c :: rest =>
    if c.isDigit then
      let (d, r) := takeDigits rest
      (c :: d, r)
    else ([], c :: rest)

/-- Try to match the whole string against
`^<mon> ([0-9]+)[a-z]{2}, ([0-9]{4})$` for one particular month name,
returning the three capture groups (month, day digits, year digits). -/
def matchDailyWith (mon : String) (cs : List Char) : Option (String × String × String) :=
  match stripPre mon.data cs with
  | none => none
  | some rest =>
    match rest with
    | ' ' :: rest2 =>
      match takeDigits rest2 with
      | ([], _) => none
      | (ds, rest3) =>
        match rest3 with
        | a :: b :: ',' :: ' ' :: d1 :: d2 :: d3 :: d4 :: [] =>
          if a.isLower && b.isLower && d1.isDigit && d2.isDigit && d3.isDigit && d4.isDigit
          then some (mon, String.mk ds, String.mk [d1, d2, d3, d4])
          else none
        | _ => none
    | _ => none

/-- Try the month alternatives in order (no month name is a prefix of
another, so at most one alternative can succeed). -/
def matchDailyAux : List String → List Char → Option (String × String × String)
  | [], _ => none
  | m :: ms, cs =>
    match matchDailyWith m cs with
    | some r => some r
    | none => matchDailyAux ms cs

/-- The anchored regex `reDaily` applied to a whole string
(`FindAllStringSubmatch(in, -1)` of an anchored pattern matches at most
once, namely when the whole string matches). -/
def matchDaily (cs : List Char) : Option (String × String × String) :=
  matchDailyAux monthNames cs

/-- Go `isLeap` as used by `time.Date` validation. -/
def isLeap (y : Nat) : Bool :=
  y % 4 = 0 && (y % 100 ≠ 0 || y % 400 = 0)

/-- Days in a month, matching Go's `time` package. -/
def daysIn (m y : Nat) : Nat :=
  if m = 2 then (if isLeap y then 29 else 28)
  else if m = 4 ∨ m = 6 ∨ m = 9 ∨ m = 11 then 30
  else 31

/-- Position of a month name in the alternation, 1-based. -/
def monthNumAux : List String → Nat → String → Option Nat
  | [], _, _ => none
  | n :: rest, i, m => if m = n then some i else monthNumAux rest (i + 1) m

/-- Month number of a month name. -/
def monthNum (m : String) : Option Nat :=
  monthNumAux monthNames 1 m

/-- Go `time.Parse("January _2 2006", mon ++ " " ++ day ++ " " ++ year)`:
the `_2` verb consumes at most two digits, so a day group of three or more
digits fails with leftover input; afterwards Go validates that the day is
in range for the month.  Returns (year, month, day) on success. -/
def timeParseRoam (mon day year : String) : Option (Nat × Nat × Nat) :=
  match monthNum mon with
  | none => none
  | some m =>
    if day.length > 2 then none
    else
      let d := digitsVal day.data
      let y := digitsVal year.data
      if 1 ≤ d ∧ d ≤ daysIn m y then some (y, m, d) else none

/-- Go `t.Format("2006-01-02")`. -/
def formatObs (y m d : Nat) : String :=
  padZ 4 y ++ "-" ++ padZ 2 m ++ "-" ++ padZ 2 d

/-- src/main.go:266 `parseRoamDate`: if `reDaily` does not match the whole
string exactly once, return the input unchanged with flag `false`;
otherwise parse the date (an invalid calendar date is an error) and return
the `YYYY-MM-DD` form with flag `true`. -/
def parseRoamDate (s : String) : Except String (String × Bool) :=
  match matchDaily s.data with
  | none => .ok (s, false)
  | some (mon, day, year) =>
    match timeParseRoam mon day year with
    | none => .error ("cannot parse date " ++ s)
    | some (y, m, d) => .ok (formatObs y m d, true)

/-! ## Errors -/

/-- Failures of the embedded program: `badDate` models the Go error value
returned for an unparsable date; `fuel` marks exhaustion of the fuel given
to one of the source's unbounded rewrite loops (the Go program would still
be running). -/
inductive Err : Type where
  | fuel : Err
  | badDate : String → Err
  deriving DecidableEq

/-! ## Day-link rewriting (src/main.go:198 `replaceDayLinks`) -/

/-- One iteration of the `replaceDayLinks` loop: find the leftmost
`reDayLink` match; `none` when there is no match (the loop exits), an
error when the inner text parses as an invalid date, and otherwise the
rewritten string `head ++ "[[" ++ obsDate ++ "]]" ++ tail`
(src/main.go:202-215). -/
def dayLinkStep (s : String) : Option (Except Err String) :=
  match findDayLink s.data with
  | none => none
  | some (pre, inner, post) =>
    match parseRoamDate (String.mk inner) with
    | .error _ => some (.error (.badDate ("invalid date " ++ String.mk inner)))
    | .ok (obs, _) =>
      some (.ok (String.mk pre ++ "[[" ++ obs ++ "]]" ++ String.mk post))

/-- src/main.go:198 `replaceDayLinks`, with fuel for the unbounded
`for {}` loop. -/
def replaceDayLinksFuel : Nat → String → Except Err String
  | 0, _ => .error .fuel
  | n + 1, s =>
    match dayLinkStep s with
    | none => .ok s
    | some (.error e) => .error e
    | some (.ok s2) => replaceDayLinksFuel n s2

/-! ## Block-reference resolution (src/main.go:161 `replaceBlockRefs`) -/

/-- The uid→block map `uidBlock` (Go `map[string]Child`), as an
association list where the most recent insertion is found first. -/
abbrev Index := List (String × Child)

/-- Go map lookup `uidBlock[uid]`. -/
def idxFind : Index → String → Option Child
  | [], _ => none
  | (k, v) :: rest, u => if k = u then some v else idxFind rest u

/-- The set `referencedUID` (Go `map[string]struct{}`), as a
duplicate-free list. -/
abbrev RefSet := List String

/-- Go set insertion `referencedUID[uid] = struct{}{}`. -/
def refInsert (set : RefSet) (u : String) : RefSet :=
  if set.contains u then set else set ++ [u]

/-- The replacement text
`fmt.Sprintf("%s [[%s#^%s]]", child.String, child.Page.Title, child.UID)`
(src/main.go:185). -/
def refLink (child : Child) : String :=
  child.text ++ " [[" ++ child.page.title ++ "#^" ++ child.uid ++ "]]"

/-- String effect of processing one regex match in `replaceBlockRefs`
(src/main.go:176-187): when the uid is in the index the matched span is
replaced by `refLink`; otherwise the string is unchanged (`continue`). -/
def handleStr (idx : Index) (s : String) (pre uid post : List Char) : String :=
  match idxFind idx (String.mk uid) with
  | none => s
  | some child => String.mk pre ++ refLink child ++ String.mk post

/-- Set effect of processing one regex match: a known uid is marked
referenced. -/
def handleSet (idx : Index) (uid : List Char) (set : RefSet) : RefSet :=
  match idxFind idx (String.mk uid) with
  | none => set
  | some _ => refInsert set (String.mk uid)

/-- Diagnostic effect of processing one regex match: an unknown uid prints
`**** did not find uid: <uid>` (src/main.go:179). -/
def handleDiag (idx : Index) (uid : List Char) : List String :=
  match idxFind idx (String.mk uid) with
  | none => ["**** did not find uid: " ++ String.mk uid]
  | some _ => []

/-- One pass of the inner `for _, re := range regexList` loop of
src/main.go:170-188, over `[reBlockEmbed, reBlockMentions, reBlockRef]`.
The loop `break`s out as soon as the CURRENT regex has no match in the
current string; a matched-but-unknown uid prints a diagnostic and
`continue`s to the NEXT regex with the string unchanged.  The final `Bool`
is `match != nil` after the loop: `true` exactly when the last regex,
`reBlockRef`, found a match, in which case the outer `for {}` loop spins
again. -/
def sweep (idx : Index) (s : String) (set : RefSet) : String × RefSet × List String × Bool :=
  match findBlockEmbed s.data with
  | none => (s, set, [], false)
  | some (p1, u1, q1) =>
    let s1 := handleStr idx s p1 u1 q1
    let set1 := handleSet idx u1 set
    let ds1 := handleDiag idx u1
    match findBlockMentions s1.data with
    | none => (s1, set1, ds1, false)
    | some (p2, u2, q2) =>
      let s2 := handleStr idx s1 p2 u2 q2
      let set2 := handleSet idx u2 set1
      let ds2 := handleDiag idx u2
      match findBlockRef s2.data with
      | none => (s2, set2, ds1 ++ ds2, false)
      | some (p3, u3, q3) =>
        (handleStr idx s2 p3 u3 q3, handleSet idx u3 set2,
         ds1 ++ ds2 ++ handleDiag idx u3, true)

/-- The outer `for {}` loop of src/main.go:168-193, with fuel; diagnostics
accumulate across iterations. -/
def blockRefLoop : Nat → Index → String → RefSet → List String →
    Except Err (String × RefSet × List String)
  | 0, _, _, _, _ => .error .fuel
  | n + 1, idx, s, set, ds =>
    match sweep idx s set with
    | (s2, set2, ds2, true) => blockRefLoop n idx s2 set2 (ds ++ ds2)
    | (s2, set2, ds2, false) => .ok (s2, set2, ds ++ ds2)

/-- src/main.go:161 `replaceBlockRefs`: the rewrite loop followed by
`replaceDayLinks` on the result.  Returns the rewritten string, the
updated referenced set, and the diagnostics printed. -/
def replaceBlockRefs (fuel : Nat) (idx : Index) (s : String) (set : RefSet) :
    Except Err (String × RefSet × List String) :=
  match blockRefLoop fuel idx s set [] with
  | .error e => .error e
  | .ok (u, set2, ds) =>
    match replaceDayLinksFuel fuel u with
    | .error e => .error e
    | .ok out => .ok (out, set2, ds)

/-! ## Rendering (src/main.go:115 `expandChildren`) -/

/-- The prefix computed at src/main.go:119-131: an indentation of
`4*level` spaces (none at level 0), preceded by `heading` `#` characters
and a space when `heading > 0`, followed by a `* ` bullet when the block
has children and `level > 0`. -/
def linePfx (kids : ChildList) (heading level : Nat) : String :=
  let pfx0 := if level > 0 then srepeat " " (4 * level) else ""
  let pfx1 := if heading > 0 then srepeat "#" heading ++ " " ++ pfx0 else pfx0
  if clLength kids > 0 && level > 0 then pfx1 ++ "* " else pfx1

/-- Line assembly at src/main.go:143-146: prefix, resolved text and anchor
suffix concatenated; when the result contains a newline, every newline is
followed by the prefix again and a trailing newline is appended. -/
def mkLine (pfx updated sfx : String) : String :=
  let line0 := pfx ++ updated ++ sfx
  if containsNL line0 then replaceNLs line0 pfx ++ "\n" else line0

/-- src/main.go:115 `expandChildren`: render a list of sibling blocks at
a nesting level, depth first.  Faithful to the source: the anchor suffix
is decided from the referenced set as it stands BEFORE this block's own
text is resolved; the set updated by resolution is threaded through the
children and the remaining siblings. -/
def expandChildren (fuel : Nat) (idx : Index) :
    ChildList → RefSet → Nat → Except Err (List String × RefSet)
  | .nil, set, _ => .ok ([], set)
  | .cons (Child.mk uid text kids heading _) rest, set, level =>
    let sfx := if set.contains uid then " ^" ++ uid else ""
    match replaceBlockRefs fuel idx text set with
    | .error e => .error e
    | .ok (updated, set1, _) =>
      match expandChildren fuel idx kids set1 (level + 1) with
      | .error e => .error e
      | .ok (sub, set2) =>
        match expandChildren fuel idx rest set2 level with
        | .error e => .error e
        | .ok (ls, set3) =>
          .ok (mkLine (linePfx kids heading level) updated sfx :: (sub ++ ls), set3)

/-! ## Pass 1 (src/main.go:221 `pass1`, 245 `collectBlocks`, 253
`parsePageDate`) -/

/-- src/main.go:245 `collectBlocks`: walk the block tree; each block is
stored in the map under its uid, as a copy whose `Page` field is set to
the given page, then its children and the remaining siblings are
visited. -/
def collectBlocks (idx : Index) (page : Page) : ChildList → Index
  | .nil => idx
  | .cons (Child.mk uid text kids heading _) rest =>
    collectBlocks (collectBlocks ((uid, Child.mk uid text kids heading page) :: idx) page kids) page rest

/-- src/main.go:253 `parsePageDate`: normalize the title via
`parseRoamDate` and set `IsDaily` on the given page value (a copy!) when
it matched.  Returns the new title and the mutated copy. -/
def parsePageDate (page : Page) : Except String (String × Page) :=
  match parseRoamDate page.title with
  | .error e => .error e
  | .ok (update, matched) =>
    .ok (update, if matched then page.setIsDaily true else page)

/-- src/main.go:221 `pass1`.  Faithful to the Go `for i, page := range
pages` loop: `parsePageDate` mutates the loop COPY, `collectBlocks` reads
that copy (whose title is still the original), and only the normalized
title — not the IsDaily flag — is written back to the slice element. -/
def pass1 : List Page → Index → Except Err (List Page × Index)
  | [], idx => .ok ([], idx)
  | p :: rest, idx =>
    match parsePageDate p with
    | .error e => .error (.badDate e)
    | .ok (title, copy) =>
      let idx2 := collectBlocks idx copy copy.children
      match pass1 rest idx2 with
      | .error e => .error e
      | .ok (rest2, idx3) => .ok (p.setTitle title :: rest2, idx3)

/-! ## Pass 2 (src/main.go:99 `pass2`) -/

/-- src/main.go:99 `pass2`: run `expandChildren` over every page at level
0, discarding the lines and keeping the referenced set. -/
def pass2 (fuel : Nat) (idx : Index) : List Page → RefSet → Except Err RefSet
  | [], set => .ok set
  | p :: rest, set =>
    match expandChildren fuel idx p.children set 0 with
    | .error e => .error e
    | .ok (_, set2) => pass2 fuel idx rest set2

/-! ## Pass 3 (src/main.go:60 `pass3`) -/

/-- Destination path of a page (src/main.go:70-73), with `filepath.Join`
modelled as "/"-joining.  (The stripped `title` local computed at
src/main.go:67-68 is dead code in the source: `dest` uses `page.Title`.) -/
def destPath (outDir : String) (p : Page) : String :=
  if p.isDaily then outDir ++ "/daily/" ++ p.title ++ ".md"
  else outDir ++ "/" ++ p.title ++ ".md"

/-- src/main.go:60 `pass3`: skip pages with an empty title; render every
other page and write `joinNL lines` to its destination path.  Returns the
files written in order and the first error, if any (files written before
the error remain). -/
def pass3 (fuel : Nat) (idx : Index) (outDir : String) :
    List Page → RefSet → List (String × String) × Option Err
  | [], _ => ([], none)
  | p :: rest, set =>
    if p.title = "" then pass3 fuel idx outDir rest set
    else
      match expandChildren fuel idx p.children set 0 with
      | .error e => ([], some e)
      | .ok (lines, set2) =>
        let (files, err) := pass3 fuel idx outDir rest set2
        ((destPath outDir p, joinNL lines) :: files, err)

/-! ## Driver (src/main.go:31 `run`) -/

/-- Set the page field of the j-th element of a child list. -/
def setNthPage : ChildList → Nat → Page → ChildList
  | .nil, _, _ => .nil
  | .cons c rest, 0, pg => .cons (c.setPage pg) rest
  | .cons c rest, j + 1, pg => .cons c (setNthPage rest j pg)

/-- The loop body iteration of src/main.go:41-45 for one page: for each j,
`pages[i].RawChildren[j].Page = pages[i]` — each assignment embeds a copy
of the page value as it stands at that moment. -/
def assignTopGo : Nat → Page → Nat → Page
  | 0, p, _ => p
  | n + 1, p, j => assignTopGo n (Page.mk p.title (setNthPage p.children j p) p.isDaily) (j + 1)

/-- src/main.go:41-45 for one page. -/
def assignTop (p : Page) : Page :=
  assignTopGo (clLength p.children) p 0

/-- src/main.go:31 `run` after config validation and JSON loading: the
top-level page assignment loop, then the three passes.  The result is the
list of files written and the error, if any. -/
def runTrace (fuel : Nat) (pages : List Page) (outDir : String) :
    List (String × String) × Option Err :=
  let pages1 := pages.map assignTop
  match pass1 pages1 [] with
  | .error e => ([], some e)
  | .ok (pages2, idx) =>
    match pass2 fuel idx pages2 [] with
    | .error e => ([], some e)
    | .ok set => pass3 fuel idx outDir pages2 set

/-! ## Specification-side renderer for the anchor invariant.

The spec (§3 ReferencedSet, §4.4) says: a block acquires its ` ^<id>`
anchor in the final output if and only if its id is in the ReferencedSet
as it stands AFTER Pass 2 completes.  `renderFixed` renders with the
anchor decided against one FIXED set and with the set side effects of
resolution discarded; comparing `pass3` against it expresses that during
Pass 3 the referenced set never moves beyond its post-Pass-2 state. -/

/-- Modelled from the spec: `expandChildren` with the anchor suffix
decided by membership of the block's uid in the fixed set `anch`, and the
resolution's referenced-set updates discarded. -/
def renderFixed (fuel : Nat) (idx : Index) (anch : RefSet) :
    ChildList → Nat → Except Err (List String)
  | .nil, _ => .ok []
  | .cons (Child.mk uid text kids heading _) rest, level =>
    let sfx := if anch.contains uid then " ^" ++ uid else ""
    match replaceBlockRefs fuel idx text [] with
    | .error e => .error e
    | .ok (updated, _, _) =>
      match renderFixed fuel idx anch kids (level + 1) with
      | .error e => .error e
      | .ok sub =>
        match renderFixed fuel idx anch rest level with
        | .error e => .error e
        | .ok ls =>
          .ok (mkLine (linePfx kids heading level) updated sfx :: (sub ++ ls))

/-- Modelled from the spec: the files Pass 3 writes when every page is
rendered by `renderFixed` against one fixed anchor set. -/
def fixedFiles (fuel : Nat) (idx : Index) (anch : RefSet) (outDir : String) :
    List Page → List (String × String)
  | [] => []
  | p :: rest =>
    if p.title = "" then fixedFiles fuel idx anch outDir rest
    else
      match renderFixed fuel idx anch p.children 0 with
      | .error _ => fixedFiles fuel idx anch outDir rest
      | .ok lines => (destPath outDir p, joinNL lines) :: fixedFiles fuel idx anch outDir rest

/-! ## Decidability and concrete inputs for the claims -/

deriving instance DecidableEq for Except

/-- Projection of an `Except` result to an `Option`, used to state
evaluations of the pipeline without needing equality on `Page`. -/
def exOk {ε α : Type} : Except ε α → Option α
  | .ok a => some a
  | .error _ => none

/-- A one-entry index: uid `abc123456` bound to the block `Buy milk` on
page `Notes`. -/
def idxC1 : Index :=
  [("abc123456", Child.mk "abc123456" "Buy milk" .nil 0 (Page.mk "Notes" .nil false))]

/-- A corpus with one daily page, one page with an empty title and one
ordinary page. -/
def corpusC2 : List Page :=
  [Page.mk "January 5th, 2024" (.cons (Child.mk "abc123456" "hello" .nil 0 pageZero) .nil) false,
   Page.mk "" (.cons (Child.mk "z00000001" "zz" .nil 0 pageZero) .nil) false,
   Page.mk "Notes" .nil false]

/-- A corpus where a block of the page `Notes` embeds the block
`abc123456` that lives on a daily page. -/
def corpusC9 : List Page :=
  [Page.mk "January 5th, 2024" (.cons (Child.mk "abc123456" "Buy milk" .nil 0 pageZero) .nil) false,
   Page.mk "Notes" (.cons (Child.mk "ref000001" "\x7b\x7bembed: ((abc123456))\x7d\x7d" .nil 0 pageZero) .nil) false]

/-- Index for the Pass 2/Pass 3 witness corpus. -/
def idxC6 : Index :=
  [("abc123456", Child.mk "abc123456" "Buy milk" .nil 0 (Page.mk "Notes" .nil false))]

/-- Witness corpus: the page `Refs` embeds the block `abc123456` of the
page `Notes`. -/
def pagesC6 : List Page :=
  [Page.mk "Notes" (.cons (Child.mk "abc123456" "Buy milk" .nil 0 pageZero) .nil) false,
   Page.mk "Refs" (.cons (Child.mk "ref000001" "\x7b\x7bembed: ((abc123456))\x7d\x7d" .nil 0 pageZero) .nil) false]

/-- A bracketed span that matches the loose `reDayLink` character-class
pattern but not the anchored `reDaily` pattern. -/
def strayDay : String := "[[blah 5th, 2024]]"

/-- A block text containing both a loose day-link-shaped span and a
well-formed valid daily link. -/
def mixedDay : String := "see [[blah 5th, 2024]] and [[January 5th, 2024]]"

/-! ## Supporting lemmas -/

theorem mem_of_contains {S : RefSet} {u : String} (h : S.contains u = true) : u ∈ S :=
  List.elem_iff.mp h

theorem contains_of_mem {S : RefSet} {u : String} (h : u ∈ S) : S.contains u = true :=
  List.elem_iff.mpr h

theorem contains_congr {T U : RefSet} (h : ∀ v, v ∈ T ↔ v ∈ U) (u : String) :
    T.contains u = U.contains u := by
  by_cases hm : u ∈ U
  · rw [contains_of_mem hm, contains_of_mem ((h u).mpr hm)]
  · have ht : u ∉ T := fun hc => hm ((h u).mp hc)
    simp [List.elem_iff, ht, hm]

theorem mem_refInsert (S : RefSet) (v u : String) : u ∈ refInsert S v ↔ u ∈ S ∨ u = v := by
  unfold refInsert
  by_cases h : v ∈ S
  · simp [h]
    intro he; subst he; exact h
  · simp [List.elem_iff, h, List.mem_append]

theorem refInsert_sub (S : RefSet) (v u : String) (h : u ∈ S) : u ∈ refInsert S v :=
  (mem_refInsert S v u).mpr (Or.inl h)

theorem mem_handleSet (idx : Index) (uid : List Char) (S : RefSet) (u : String) :
    u ∈ handleSet idx uid S ↔ u ∈ S ∨ u ∈ handleSet idx uid [] := by
  unfold handleSet
  cases idxFind idx (String.mk uid) with
  | none => simp
  | some c => simp [mem_refInsert]

theorem sweep_indep (idx : Index) (s : String) (S T : RefSet) :
    (sweep idx s S).1 = (sweep idx s T).1 ∧
    (sweep idx s S).2.2.1 = (sweep idx s T).2.2.1 ∧
    (sweep idx s S).2.2.2 = (sweep idx s T).2.2.2 := by
  unfold sweep
  cases findBlockEmbed s.data with
  | none => exact ⟨rfl, rfl, rfl⟩
  | some m1 =>
    obtain ⟨p1, u1, q1⟩ := m1
    simp only
    cases findBlockMentions (handleStr idx s p1 u1 q1).data with
    | none => exact ⟨rfl, rfl, rfl⟩
    | some m2 =>
      obtain ⟨p2, u2, q2⟩ := m2
      simp only
      cases findBlockRef (handleStr idx (handleStr idx s p1 u1 q1) p2 u2 q2).data with
      | none => exact ⟨rfl, rfl, rfl⟩
      | some m3 => obtain ⟨p3, u3, q3⟩ := m3; exact ⟨rfl, rfl, rfl⟩

theorem sweep_set_mem (idx : Index) (s : String) (S : RefSet) (u : String) :
    u ∈ (sweep idx s S).2.1 ↔ u ∈ S ∨ u ∈ (sweep idx s []).2.1 := by
  unfold sweep
  cases findBlockEmbed s.data with
  | none => simp
  | some m1 =>
    obtain ⟨p1, u1, q1⟩ := m1
    simp only
    cases findBlockMentions (handleStr idx s p1 u1 q1).data with
    | none => exact mem_handleSet idx u1 S u
    | some m2 =>
      obtain ⟨p2, u2, q2⟩ := m2
      simp only
      cases findBlockRef (handleStr idx (handleStr idx s p1 u1 q1) p2 u2 q2).data with
      | none =>
        rw [mem_handleSet idx u2 (handleSet idx u1 S) u,
            mem_handleSet idx u1 S u,
            mem_handleSet idx u2 (handleSet idx u1 []) u]
        tauto
      | some m3 =>
        obtain ⟨p3, u3, q3⟩ := m3
        simp only
        rw [mem_handleSet idx u3 (handleSet idx u2 (handleSet idx u1 S)) u,
            mem_handleSet idx u2 (handleSet idx u1 S) u,
            mem_handleSet idx u1 S u,
            mem_handleSet idx u3 (handleSet idx u2 (handleSet idx u1 [])) u,
            mem_handleSet idx u2 (handleSet idx u1 []) u]
        tauto

theorem blockRefLoop_succ (n : Nat) (idx : Index) (s : String) (set : RefSet) (ds : List String) :
    blockRefLoop (n + 1) idx s set ds =
      (if (sweep idx s set).2.2.2 = true then
        blockRefLoop n idx (sweep idx s set).1 (sweep idx s set).2.1 (ds ++ (sweep idx s set).2.2.1)
      else .ok ((sweep idx s set).1, (sweep idx s set).2.1, ds ++ (sweep idx s set).2.2.1)) := by
  rcases h : sweep idx s set with ⟨s2, set2, ds2, b⟩
  cases b <;> simp [blockRefLoop, h]

theorem blockRefLoop_indep (n : Nat) (idx : Index) :
    ∀ (s : String) (ds : List String) (S T : RefSet),
    (blockRefLoop n idx s S ds).map (fun r => (r.1, r.2.2)) =
    (blockRefLoop n idx s T ds).map (fun r => (r.1, r.2.2)) := by
  induction n with
  | zero => intro s ds S T; rfl
  | succ n ih =>
    intro s ds S T
    rw [blockRefLoop_succ, blockRefLoop_succ]
    obtain ⟨hs, hds1, hb⟩ := sweep_indep idx s S T
    rw [hb, hds1, hs]
    by_cases hbt : (sweep idx s T).2.2.2 = true
    · simp only [hbt, if_true]
      exact ih _ _ _ _
    · simp only [hbt, if_false, Bool.false_eq_true, Except.map]

theorem blockRefLoop_ok_indep {n : Nat} {idx : Index} {s : String} {ds : List String}
    {S : RefSet} {r : String × RefSet × List String} (T : RefSet)
    (h : blockRefLoop n idx s S ds = .ok r) :
    ∃ r2, blockRefLoop n idx s T ds = .ok r2 ∧ r2.1 = r.1 ∧ r2.2.2 = r.2.2 := by
  have heq := blockRefLoop_indep n idx s ds S T
  rw [h] at heq
  cases h2 : blockRefLoop n idx s T ds with
  | error e => rw [h2] at heq; simp [Except.map] at heq
  | ok r2 =>
    rw [h2] at heq
    simp only [Except.map, Except.ok.injEq] at heq
    exact ⟨r2, rfl, (congrArg Prod.fst heq).symm, (congrArg Prod.snd heq).symm⟩

theorem blockRefLoop_add (n : Nat) (idx : Index) :
    ∀ (s : String) (ds : List String) (S : RefSet) (r r0 : String × RefSet × List String),
    blockRefLoop n idx s S ds = .ok r → blockRefLoop n idx s [] ds = .ok r0 →
    ∀ u, u ∈ r.2.1 ↔ u ∈ S ∨ u ∈ r0.2.1 := by
  induction n with
  | zero => intro s ds S r r0 h; cases h
  | succ n ih =>
    intro s ds S r r0 h h0 u
    rw [blockRefLoop_succ] at h h0
    obtain ⟨hs, hds1, hb⟩ := sweep_indep idx s S []
    rw [hb, hds1, hs] at h
    by_cases hbt : (sweep idx s []).2.2.2 = true
    · rw [if_pos hbt] at h h0
      obtain ⟨rm, hm, _, _⟩ := blockRefLoop_ok_indep ([]) h0
      have e1 := ih _ _ _ _ _ h hm u
      have e0 := ih _ _ _ _ _ h0 hm u
      have e2 := sweep_set_mem idx s S u
      rw [e1, e0, e2]
      tauto
    · rw [if_neg hbt] at h h0
      cases h; cases h0
      simpa using sweep_set_mem idx s S u

theorem blockRefLoop_mono {n : Nat} {idx : Index} {s : String} {ds : List String}
    {S : RefSet} {r : String × RefSet × List String}
    (h : blockRefLoop n idx s S ds = .ok r) : ∀ u, u ∈ S → u ∈ r.2.1 := by
  intro u hu
  obtain ⟨r0, h0, _, _⟩ := blockRefLoop_ok_indep ([]) h
  exact (blockRefLoop_add n idx s ds S r r0 h h0 u).mpr (Or.inl hu)

theorem rbr_ok_indep {fuel : Nat} {idx : Index} {s : String} {S : RefSet}
    {r : String × RefSet × List String} (T : RefSet)
    (h : replaceBlockRefs fuel idx s S = .ok r) :
    ∃ r2, replaceBlockRefs fuel idx s T = .ok r2 ∧ r2.1 = r.1 ∧ r2.2.2 = r.2.2 := by
  unfold replaceBlockRefs at h ⊢
  cases hl : blockRefLoop fuel idx s S [] with
  | error e => rw [hl] at h; cases h
  | ok m =>
    obtain ⟨mu, mset, mds⟩ := m
    rw [hl] at h
    simp only at h
    obtain ⟨m2, hl2, hm1, hm2⟩ := blockRefLoop_ok_indep T hl
    obtain ⟨nu, nset, nds⟩ := m2
    simp only at hm1 hm2
    rw [hl2]
    simp only [hm1]
    cases hd : replaceDayLinksFuel fuel mu with
    | error e => rw [hd] at h; cases h
    | ok out =>
      rw [hd] at h
      cases h
      exact ⟨(out, nset, nds), rfl, rfl, hm2⟩

theorem rbr_add {fuel : Nat} {idx : Index} {s : String} {S : RefSet}
    {r r0 : String × RefSet × List String}
    (h : replaceBlockRefs fuel idx s S = .ok r)
    (h0 : replaceBlockRefs fuel idx s [] = .ok r0) :
    ∀ u, u ∈ r.2.1 ↔ u ∈ S ∨ u ∈ r0.2.1 := by
  unfold replaceBlockRefs at h h0
  cases hl : blockRefLoop fuel idx s S [] with
  | error e => rw [hl] at h; cases h
  | ok m =>
    obtain ⟨mu, mset, mds⟩ := m
    rw [hl] at h
    simp only at h
    cases hl0 : blockRefLoop fuel idx s [] [] with
    | error e => rw [hl0] at h0; cases h0
    | ok m0 =>
      obtain ⟨mu0, mset0, mds0⟩ := m0
      rw [hl0] at h0
      simp only at h0
      cases hd : replaceDayLinksFuel fuel mu with
      | error e => rw [hd] at h; cases h
      | ok out =>
        rw [hd] at h
        cases hd0 : replaceDayLinksFuel fuel mu0 with
        | error e => rw [hd0] at h0; cases h0
        | ok out0 =>
          rw [hd0] at h0
          cases h; cases h0
          simpa using blockRefLoop_add fuel idx s [] S _ _ hl hl0

theorem rbr_mono {fuel : Nat} {idx : Index} {s : String} {S : RefSet}
    {r : String × RefSet × List String}
    (h : replaceBlockRefs fuel idx s S = .ok r) : ∀ u, u ∈ S → u ∈ r.2.1 := by
  intro u hu
  obtain ⟨r0, h0, _, _⟩ := rbr_ok_indep ([]) h
  exact (rbr_add h h0 u).mpr (Or.inl hu)

theorem expand_cons_inv {fuel : Nat} {idx : Index} {uid text : String} {kids : ChildList}
    {heading : Nat} {pg : Page} {rest : ChildList} {set : RefSet} {level : Nat}
    {r : List String × RefSet}
    (h : expandChildren fuel idx (.cons (Child.mk uid text kids heading pg) rest) set level = .ok r) :
    ∃ o s1 d1 sub s2 ls s3,
      replaceBlockRefs fuel idx text set = .ok (o, s1, d1) ∧
      expandChildren fuel idx kids s1 (level + 1) = .ok (sub, s2) ∧
      expandChildren fuel idx rest s2 level = .ok (ls, s3) ∧
      r = (mkLine (linePfx kids heading level) o
             (if set.contains uid then " ^" ++ uid else "") :: (sub ++ ls), s3) := by
  unfold expandChildren at h
  simp only at h
  cases hrbr : replaceBlockRefs fuel idx text set with
  | error e => rw [hrbr] at h; cases h
  | ok m =>
    obtain ⟨o, s1, d1⟩ := m
    rw [hrbr] at h
    simp only at h
    cases hkids : expandChildren fuel idx kids s1 (level + 1) with
    | error e => rw [hkids] at h; cases h
    | ok mk2 =>
      obtain ⟨sub, s2⟩ := mk2
      rw [hkids] at h
      simp only at h
      cases hrest : expandChildren fuel idx rest s2 level with
      | error e => rw [hrest] at h; cases h
      | ok mk3 =>
        obtain ⟨ls, s3⟩ := mk3
        rw [hrest] at h
        simp only at h
        cases h
        exact ⟨o, s1, d1, sub, s2, ls, s3, rfl, hkids, hrest, rfl⟩

theorem expand_mono : ∀ (cs : ChildList) {fuel : Nat} {idx : Index} {set : RefSet}
    {level : Nat} {r : List String × RefSet},
    expandChildren fuel idx cs set level = .ok r → ∀ u, u ∈ set → u ∈ r.2
  | .nil => by
    intro h u hu
    unfold expandChildren at h
    cases h
    exact hu
  | .cons (Child.mk uid text kids heading pg) rest => by
    intro h u hu
    obtain ⟨o, s1, d1, sub, s2, ls, s3, hrbr, hkids, hrest, hr⟩ := expand_cons_inv h
    subst hr
    exact expand_mono rest hrest u (expand_mono kids hkids u (rbr_mono hrbr u hu))

theorem renderFixed_cons (fuel : Nat) (idx : Index) (anch : RefSet) (uid text : String)
    (kids : ChildList) (heading : Nat) (pg : Page) (rest : ChildList) (level : Nat)
    {o : String} {s0 : RefSet} {d0 : List String} {sub ls : List String}
    (hrbr : replaceBlockRefs fuel idx text [] = .ok (o, s0, d0))
    (hkids : renderFixed fuel idx anch kids (level + 1) = .ok sub)
    (hrest : renderFixed fuel idx anch rest level = .ok ls) :
    renderFixed fuel idx anch (.cons (Child.mk uid text kids heading pg) rest) level =
      .ok (mkLine (linePfx kids heading level) o
        (if anch.contains uid then " ^" ++ uid else "") :: (sub ++ ls)) := by
  unfold renderFixed
  rw [hrbr]
  simp only
  rw [hkids]
  simp only
  rw [hrest]

theorem expand_cons_intro (fuel : Nat) (idx : Index) (uid text : String)
    (kids : ChildList) (heading : Nat) (pg : Page) (rest : ChildList) (set : RefSet)
    (level : Nat) {o : String} {s1 : RefSet} {d1 : List String}
    {sub : List String} {s2 : RefSet} {ls : List String} {s3 : RefSet}
    (hrbr : replaceBlockRefs fuel idx text set = .ok (o, s1, d1))
    (hkids : expandChildren fuel idx kids s1 (level + 1) = .ok (sub, s2))
    (hrest : expandChildren fuel idx rest s2 level = .ok (ls, s3)) :
    expandChildren fuel idx (.cons (Child.mk uid text kids heading pg) rest) set level =
      .ok (mkLine (linePfx kids heading level) o
        (if set.contains uid then " ^" ++ uid else "") :: (sub ++ ls), s3) := by
  unfold expandChildren
  rw [hrbr]
  simp only
  rw [hkids]
  simp only
  rw [hrest]

theorem expand_fixed : ∀ (cs : ChildList) (fuel : Nat) (idx : Index) (level : Nat)
    (S T U : RefSet) (r : List String × RefSet),
    expandChildren fuel idx cs S level = .ok r →
    (∀ u, u ∈ S → u ∈ U) → (∀ u, u ∈ r.2 → u ∈ U) → (∀ u, u ∈ T ↔ u ∈ U) →
    ∃ ls2 T2, renderFixed fuel idx U cs level = .ok ls2 ∧
      expandChildren fuel idx cs T level = .ok (ls2, T2) ∧ (∀ u, u ∈ T2 ↔ u ∈ U)
  | .nil => by
    intro fuel idx level S T U r h hSU hrU hT
    unfold expandChildren at h
    cases h
    exact ⟨[], _, rfl, rfl, hT⟩
  | .cons (Child.mk uid text kids heading pg) rest => by
    intro fuel idx level S T U r h hSU hrU hT
    obtain ⟨o, s1, d1, sub, s2, ls, s3, hrbr, hkids, hrest, hr⟩ := expand_cons_inv h
    subst hr
    simp only at hrU
    have hs1s2 : ∀ u, u ∈ s1 → u ∈ s2 := fun u hu => expand_mono kids hkids u hu
    have hs2s3 : ∀ u, u ∈ s2 → u ∈ s3 := fun u hu => expand_mono rest hrest u hu
    have hs1U : ∀ u, u ∈ s1 → u ∈ U := fun u hu => hrU u (hs2s3 u (hs1s2 u hu))
    have hs2U : ∀ u, u ∈ s2 → u ∈ U := fun u hu => hrU u (hs2s3 u hu)
    obtain ⟨r0, h0, h01, h02⟩ := rbr_ok_indep ([]) hrbr
    obtain ⟨o0, sr0, dr0⟩ := r0
    simp only at h01 h02
    subst h01
    obtain ⟨rT, hTr, hT1, hT2⟩ := rbr_ok_indep T hrbr
    obtain ⟨oT, sT, dT⟩ := rT
    simp only at hT1 hT2
    subst hT1
    have hadd_S := rbr_add hrbr h0
    have hadd_T := rbr_add hTr h0
    simp only at hadd_S hadd_T
    have hr0U : ∀ u, u ∈ sr0 → u ∈ U := fun u hu => hs1U u ((hadd_S u).mpr (Or.inr hu))
    have hTU : ∀ u, u ∈ sT ↔ u ∈ U := by
      intro u
      rw [hadd_T u]
      constructor
      · rintro (hu | hu)
        · exact (hT u).mp hu
        · exact hr0U u hu
      · intro hu
        exact Or.inl ((hT u).mpr hu)
    obtain ⟨sub2, T2, hrfk, hek, hT2U⟩ :=
      expand_fixed kids fuel idx (level + 1) s1 sT U (sub, s2) hkids hs1U hs2U hTU
    obtain ⟨ls2, T3, hrfr, her, hT3U⟩ :=
      expand_fixed rest fuel idx level s2 T2 U (ls, s3) hrest hs2U hrU hT2U
    have hrf := renderFixed_cons fuel idx U uid text kids heading pg rest level h0 hrfk hrfr
    have heT := expand_cons_intro fuel idx uid text kids heading pg rest T level hTr hek her
    rw [contains_congr hT uid] at heT
    exact ⟨_, T3, hrf, heT, hT3U⟩

theorem pass2_cons_inv {fuel : Nat} {idx : Index} {p : Page} {rest : List Page}
    {set S2 : RefSet} (h : pass2 fuel idx (p :: rest) set = .ok S2) :
    ∃ lines snext, expandChildren fuel idx p.children set 0 = .ok (lines, snext) ∧
      pass2 fuel idx rest snext = .ok S2 := by
  unfold pass2 at h
  cases hexp : expandChildren fuel idx p.children set 0 with
  | error e => rw [hexp] at h; cases h
  | ok m =>
    obtain ⟨lines, snext⟩ := m
    rw [hexp] at h
    simp only at h
    exact ⟨lines, snext, rfl, h⟩

theorem pass2_mono : ∀ (pages : List Page) {fuel : Nat} {idx : Index} {set S2 : RefSet},
    pass2 fuel idx pages set = .ok S2 → ∀ u, u ∈ set → u ∈ S2
  | [] => by
    intro h u hu
    unfold pass2 at h
    cases h
    exact hu
  | p :: rest => by
    intro h u hu
    obtain ⟨lines, snext, hexp, hrest⟩ := pass2_cons_inv h
    exact pass2_mono rest hrest u (expand_mono p.children hexp u hu)

theorem pass3_fixed : ∀ (pages : List Page) (fuel : Nat) (idx : Index) (outDir : String)
    (Scur T S2 : RefSet),
    pass2 fuel idx pages Scur = .ok S2 → (∀ u, u ∈ T ↔ u ∈ S2) →
    pass3 fuel idx outDir pages T = (fixedFiles fuel idx S2 outDir pages, none)
  | [] => by
    intro fuel idx outDir Scur T S2 h hT
    rfl
  | p :: rest => by
    intro fuel idx outDir Scur T S2 h hT
    obtain ⟨lines, snext, hexp, hrest⟩ := pass2_cons_inv h
    have hSU : ∀ u, u ∈ Scur → u ∈ S2 := pass2_mono (p :: rest) h
    have hrU : ∀ u, u ∈ snext → u ∈ S2 := pass2_mono rest hrest
    by_cases hti : p.title = ""
    · unfold pass3 fixedFiles
      rw [if_pos hti, if_pos hti]
      exact pass3_fixed rest fuel idx outDir snext T S2 hrest hT
    · obtain ⟨ls2, T2, hrf, heT, hT2U⟩ :=
        expand_fixed p.children fuel idx 0 Scur T S2 (lines, snext) hexp hSU hrU hT
      unfold pass3 fixedFiles
      rw [if_neg hti, if_neg hti, heT, hrf]
      simp only
      rw [pass3_fixed rest fuel idx outDir snext T2 S2 hrest hT2U]

theorem strData_append (a b : String) : (a ++ b).data = a.data ++ b.data := rfl

theorem strMk_append (a b : List Char) : String.mk a ++ String.mk b = String.mk (a ++ b) := rfl

theorem srepeat_no_nl (s : String) (h : ¬ '\n' ∈ s.data) :
    ∀ n, ¬ '\n' ∈ (srepeat s n).data
  | 0 => by simp [srepeat]
  | n + 1 => by
    intro hc
    rw [srepeat, strData_append, List.mem_append] at hc
    rcases hc with hc | hc
    · exact h hc
    · exact srepeat_no_nl s h n hc

theorem append_no_nl {a b : String} (ha : ¬ '\n' ∈ a.data) (hb : ¬ '\n' ∈ b.data) :
    ¬ '\n' ∈ (a ++ b).data := by
  rw [strData_append, List.mem_append]
  rintro (h | h)
  · exact ha h
  · exact hb h

theorem linePfx_eq (kids : ChildList) (heading level : Nat) :
    linePfx kids heading level =
      (if heading > 0 then srepeat "#" heading ++ " " else "") ++
      ((if level > 0 then srepeat " " (4 * level) else "") ++
       (if clLength kids > 0 && level > 0 then "* " else "")) := by
  unfold linePfx
  by_cases h1 : heading > 0 <;> by_cases h2 : level > 0 <;>
    by_cases h3 : clLength kids > 0 <;>
    simp [h1, h2, h3, String.append_assoc, String.append_empty]

theorem linePfx_no_nl (kids : ChildList) (heading level : Nat) :
    ¬ '\n' ∈ (linePfx kids heading level).data := by
  rw [linePfx_eq]
  have hemp : ¬ '\n' ∈ ("" : String).data := by decide
  have hbul : ¬ '\n' ∈ ("* " : String).data := by decide
  have hsp : ¬ '\n' ∈ (" " : String).data := by decide
  apply append_no_nl
  · split
    · exact append_no_nl (srepeat_no_nl "#" (by decide) _) hsp
    · exact hemp
  · apply append_no_nl
    · split
      · exact srepeat_no_nl " " hsp _
      · exact hemp
    · split
      · exact hbul
      · exact hemp

theorem replNL_append_nlfree (a : List Char) (b p : List Char) (h : ¬ '\n' ∈ a) :
    replNL (a ++ b) p = a ++ replNL b p := by
  induction a with
  | nil => rfl
  | cons c rest ih =>
    have hc : ¬ c = '\n' := by
      intro he
      exact h (he ▸ List.mem_cons_self c rest)
    have hrest : ¬ '\n' ∈ rest := fun hm => h (List.mem_cons_of_mem c hm)
    simp only [List.cons_append, replNL, if_neg hc]
    exact congrArg (c :: ·) (ih hrest)

theorem mkLine_startsWith (pfx updated sfx : String) (hnl : ¬ '\n' ∈ pfx.data) :
    ∃ body, mkLine pfx updated sfx = pfx ++ body := by
  show ∃ body,
    (if containsNL (pfx ++ updated ++ sfx) = true
     then replaceNLs (pfx ++ updated ++ sfx) pfx ++ "\n"
     else pfx ++ updated ++ sfx) = pfx ++ body
  split
  · refine ⟨String.mk (replNL (updated ++ sfx).data pfx.data) ++ "\n", ?_⟩
    have h1 : replaceNLs (pfx ++ updated ++ sfx) pfx =
        pfx ++ String.mk (replNL (updated ++ sfx).data pfx.data) := by
      unfold replaceNLs
      have : (pfx ++ updated ++ sfx).data = pfx.data ++ (updated ++ sfx).data := by
        rw [String.append_assoc]
        rfl
      rw [this, replNL_append_nlfree pfx.data (updated ++ sfx).data pfx.data hnl]
      rfl
    rw [h1, String.append_assoc]
  · exact ⟨updated ++ sfx, by rw [String.append_assoc]⟩

theorem assignTopGo_title : ∀ (n : Nat) (p : Page) (j : Nat),
    (assignTopGo n p j).title = p.title
  | 0, _, _ => rfl
  | n + 1, p, j => by
    rw [assignTopGo, assignTopGo_title n _ (j + 1)]
    rfl

theorem assignTop_title (p : Page) : (assignTop p).title = p.title :=
  assignTopGo_title _ p 0

theorem pass1_error_of_bad : ∀ (pages : List Page) (idx : Index) (p : Page),
    p ∈ pages → (∃ e0, parseRoamDate p.title = .error e0) →
    ∃ e, pass1 pages idx = .error e
  | [], _, p => by intro hp _; cases hp
  | q :: rest, idx, p => by
    intro hp hbad
    unfold pass1
    cases hq : parsePageDate q with
    | error e => exact ⟨.badDate e, rfl⟩
    | ok m =>
      obtain ⟨title, copy⟩ := m
      simp only
      rcases List.mem_cons.mp hp with heq | hmem
      · subst heq
        obtain ⟨e0, he0⟩ := hbad
        unfold parsePageDate at hq
        rw [he0] at hq
        cases hq
      · obtain ⟨e, he⟩ :=
          pass1_error_of_bad rest (collectBlocks idx copy copy.children) p hmem hbad
        rw [he]
        exact ⟨e, rfl⟩

theorem c4_invalid_daily_title_aborts_run (fuel : Nat) (pages : List Page) (outDir : String) (p : Page)
    (hp : p ∈ pages) (mon day year : String)
    (hm : matchDaily p.title.data = some (mon, day, year))
    (hv : timeParseRoam mon day year = none) :
    ∃ e, runTrace fuel pages outDir = ([], some e) := by
  have hbad : ∃ e0, parseRoamDate p.title = .error e0 := by
    unfold parseRoamDate
    rw [hm]
    dsimp only
    rw [hv]
    exact ⟨_, rfl⟩
  have hmem : assignTop p ∈ pages.map assignTop := List.mem_map_of_mem assignTop hp
  have hbad2 : ∃ e0, parseRoamDate (assignTop p).title = .error e0 := by
    rw [assignTop_title]
    exact hbad
  obtain ⟨e, he⟩ := pass1_error_of_bad (pages.map assignTop) [] (assignTop p) hmem hbad2
  refine ⟨e, ?_⟩
  unfold runTrace
  simp only
  rw [he]

theorem c7_rendered_line_prefix (fuel : Nat) (idx : Index) (uid text : String) (kids : ChildList)
    (heading : Nat) (pg : Page) (rest : ChildList) (set : RefSet) (level : Nat)
    (r : List String × RefSet)
    (h : expandChildren fuel idx (.cons (Child.mk uid text kids heading pg) rest) set level = .ok r) :
    ∃ body tail, r.1 =
      (((if heading > 0 then srepeat "#" heading ++ " " else "") ++
        ((if level > 0 then srepeat " " (4 * level) else "") ++
         (if clLength kids > 0 && level > 0 then "* " else ""))) ++ body) :: tail := by
  obtain ⟨o, s1, d1, sub, s2, ls, s3, hrbr, hkids, hrest, hr⟩ := expand_cons_inv h
  obtain ⟨body, hb⟩ := mkLine_startsWith (linePfx kids heading level) o
    (if set.contains uid then " ^" ++ uid else "") (linePfx_no_nl kids heading level)
  refine ⟨body, sub ++ ls, ?_⟩
  rw [hr]
  simp only
  rw [hb, linePfx_eq]

theorem c6_anchor_iff_in_referenced_set_after_pass2 (fuel : Nat) (idx : Index) (pages : List Page) (S2 : RefSet) (outDir : String)
    (h : pass2 fuel idx pages [] = .ok S2) :
    pass3 fuel idx outDir pages S2 = (fixedFiles fuel idx S2 outDir pages, none) :=
  pass3_fixed pages fuel idx outDir [] S2 S2 h (fun _ => Iff.rfl)

/-! ## The claims -/

/-- Claim C1 (code bug): the claim says a block text that is only a plain
reference `((abc123456))` to a known ID is replaced by the target text
followed by `[[Notes#^abc123456]]` and the ID is marked referenced.  The
inner regex loop of `replaceBlockRefs` breaks out as soon as the CURRENT
regex (first `reBlockEmbed`) has no match, so the plain-reference syntax
is never tried: the text comes back byte-for-byte unchanged with an empty
referenced set.  The second conjunct shows an embed reference, which IS
the first regex, resolving as the claim describes. -/
theorem c1_plain_reference_not_resolved :
    replaceBlockRefs 9 idxC1 "((abc123456))" [] = .ok ("((abc123456))", [], []) ∧
    replaceBlockRefs 9 idxC1 "\x7b\x7bembed: ((abc123456))\x7d\x7d" [] =
      .ok ("Buy milk [[Notes#^abc123456]]", ["abc123456"], []) := by decide

/-- Claim C2 (code bug): the claim says a page recognized as a daily note
is written under the `daily/` subdirectory.  Because `pass1` sets
`IsDaily` only on its discarded loop copy, no stored page is ever marked
daily, and the daily page is written to `out/2024-01-05.md` directly
under the output directory; no path under `out/daily/` is ever written.
The other halves of the claim hold: the ordinary page goes to
`out/Notes.md` and the empty-titled page produces no file. -/
theorem c2_daily_page_written_outside_daily_dir :
    runTrace 9 corpusC2 "out" =
      ([("out/2024-01-05.md", "hello"), ("out/Notes.md", "")], none) ∧
    ((runTrace 9 corpusC2 "out").1.map Prod.fst).contains "out/daily/2024-01-05.md" = false := by
  decide

/-- Claim C3 (code bug): the claim says Pass 1 replaces a daily-pattern
title by its `YYYY-MM-DD` form AND sets the page's is-daily flag.  The
title is indeed normalized, but `parsePageDate` mutates the `IsDaily`
field of the `for i, page := range pages` loop copy and only the title is
written back to `pages[i]`, so the stored flag stays `false`.  The second
conjunct confirms the claim's other half: a non-matching title is left
unchanged with flag `false`. -/
theorem c3_daily_flag_dropped_on_copy :
    (exOk (pass1 [Page.mk "January 5th, 2024" ChildList.nil false] [])).map
      (fun x => (x.1.map Page.title, x.1.map Page.isDaily)) = some (["2024-01-05"], [false]) ∧
    (exOk (pass1 [Page.mk "Notes" ChildList.nil false] [])).map
      (fun x => (x.1.map Page.title, x.1.map Page.isDaily)) = some (["Notes"], [false]) := by
  decide

/-- Claim C5 (code bug): the claim says reference markup with an unknown
ID is left unchanged, produces EXACTLY ONE diagnostic line, and
resolution continues non-fatally.  A lone unknown plain reference is left
unchanged but produces ZERO diagnostics (the inner loop breaks on the
embed regex before the plain-reference regex runs).  And a text holding
an unknown embed and an unknown mentions yields THREE diagnostics in a
single sweep of the inner loop (the plain-reference regex re-matches
inside the embed markup) with the continue flag set, after which the
outer loop re-scans the unchanged string forever - `replaceBlockRefs`
exhausts any fuel instead of continuing past the span. -/
theorem c5_unknown_reference_diagnostics_wrong :
    replaceBlockRefs 9 [] "((zzzzzzzzz))" [] = .ok ("((zzzzzzzzz))", [], []) ∧
    sweep [] "\x7b\x7bembed: ((aaaaaaaaa))\x7d\x7d \x7b\x7bmentions: ((bbbbbbbbb))\x7d\x7d" [] =
      ("\x7b\x7bembed: ((aaaaaaaaa))\x7d\x7d \x7b\x7bmentions: ((bbbbbbbbb))\x7d\x7d", [],
       ["**** did not find uid: aaaaaaaaa", "**** did not find uid: bbbbbbbbb",
        "**** did not find uid: aaaaaaaaa"], true) ∧
    replaceBlockRefs 9 [] "\x7b\x7bembed: ((aaaaaaaaa))\x7d\x7d \x7b\x7bmentions: ((bbbbbbbbb))\x7d\x7d" [] =
      .error .fuel := by decide

/-- Claim C8 (code bug): the claim says every block text containing a
double-bracketed valid daily date has that inner text rewritten to the
canonical form.  For a text that is exactly one valid daily link the
rewrite works (first conjunct).  But `reDayLink`'s middle group is an
accidental character class, so `[[blah 5th, 2024]]` also matches; its
inner text does not match the anchored daily pattern, `parseRoamDate`
returns it unchanged without error, and the rewrite step maps the string
to itself - the loop never terminates, so a text containing both the
stray span and a valid daily link is never rewritten at all. -/
theorem c8_day_link_rewrite_nonterminating :
    replaceDayLinksFuel 9 "[[January 5th, 2024]]" = .ok "[[2024-01-05]]" ∧
    dayLinkStep mixedDay = some (.ok mixedDay) ∧
    replaceDayLinksFuel 60 mixedDay = .error .fuel := by decide

/-- Claim C9 (code bug): the claim says the page-title component of a
generated block link equals the target page's title AFTER Pass 1
normalization.  `collectBlocks` is called on the Pass 1 loop copy, whose
title is still the original one (only `pages[i].Title` is updated), so
the index stores the pre-normalization title: the resolved link reads
`[[January 5th, 2024#^abc123456]]` while the page itself is saved as
`2024-01-05.md`. -/
theorem c9_block_link_uses_stale_page_title :
    runTrace 9 corpusC9 "out" =
      ([("out/2024-01-05.md", "Buy milk ^abc123456"),
        ("out/Notes.md", "Buy milk [[January 5th, 2024#^abc123456]]")], none) ∧
    (exOk (pass1 (corpusC9.map assignTop) [])).bind
      (fun x => (idxFind x.2 "abc123456").map (fun c => c.page.title)) =
      some "January 5th, 2024" ∧
    (exOk (pass1 (corpusC9.map assignTop) [])).map (fun x => x.1.map Page.title) =
      some ["2024-01-05", "Notes"] := by decide

/-- Claim C10 (code bug): the claim says `replaceDayLinks` always either
returns a rewritten string or fails with a date-parse error.  On
`[[blah 5th, 2024]]` the single loop step rewrites the string to itself
(the span matches the loose class pattern, and `parseRoamDate` returns a
non-matching inner text unchanged without error), so the same match is
found again forever: the loop never exits, and any amount of fuel is
exhausted. -/
theorem c10_replace_day_links_diverges :
    dayLinkStep strayDay = some (.ok strayDay) ∧
    replaceDayLinksFuel 50 strayDay = .error .fuel := by decide

/-- Witness for C4 at the concrete corpus containing the page titled
`February 30th, 2024`. -/
theorem c4_invalid_daily_title_aborts_run_witness :
    matchDaily ("February 30th, 2024").data = some ("February", "30", "2024") ∧
    timeParseRoam "February" "30" "2024" = none ∧
    ∃ e, runTrace 9 [Page.mk "February 30th, 2024" ChildList.nil false] "out" = ([], some e) :=
  ⟨by decide, by decide,
   c4_invalid_daily_title_aborts_run 9 [Page.mk "February 30th, 2024" ChildList.nil false] "out"
     (Page.mk "February 30th, 2024" ChildList.nil false) (List.mem_singleton.mpr rfl)
     "February" "30" "2024" (by decide) (by decide)⟩

/-- Witness for C6 at a concrete two-page corpus: Pass 2 marks
`abc123456` referenced; Pass 3 equals the fixed-anchor rendering, whose
files carry the single ` ^abc123456` anchor on the referenced block. -/
theorem c6_anchor_iff_in_referenced_set_after_pass2_witness :
    pass2 9 idxC6 pagesC6 [] = .ok ["abc123456"] ∧
    pass3 9 idxC6 "out" pagesC6 ["abc123456"] =
      (fixedFiles 9 idxC6 ["abc123456"] "out" pagesC6, none) ∧
    pass3 9 idxC6 "out" pagesC6 ["abc123456"] =
      ([("out/Notes.md", "Buy milk ^abc123456"),
        ("out/Refs.md", "Buy milk [[Notes#^abc123456]]")], none) :=
  ⟨by decide, c6_anchor_iff_in_referenced_set_after_pass2 9 idxC6 pagesC6 ["abc123456"] "out" (by decide), by decide⟩

/-- Witness for C7 at a depth-2 block with one child: 8-space indent plus
a `* ` bullet, and its child at depth 3 with a 12-space indent. -/
theorem c7_rendered_line_prefix_witness :
    (expandChildren 9 []
      (.cons (Child.mk "u1" "hello"
        (.cons (Child.mk "u2" "kid" ChildList.nil 0 pageZero) ChildList.nil) 0 pageZero)
        ChildList.nil) [] 2 = .ok (["        * hello", "            kid"], [])) ∧
    (∃ body tail, (["        * hello", "            kid"] : List String) =
      (((if (0 : Nat) > 0 then srepeat "#" 0 ++ " " else "") ++
        ((if (2 : Nat) > 0 then srepeat " " (4 * 2) else "") ++
         (if clLength (.cons (Child.mk "u2" "kid" ChildList.nil 0 pageZero) ChildList.nil) > 0
            && (2 : Nat) > 0 then "* " else ""))) ++ body) :: tail) :=
  ⟨by decide,
   c7_rendered_line_prefix 9 [] "u1" "hello"
     (.cons (Child.mk "u2" "kid" ChildList.nil 0 pageZero) ChildList.nil) 0 pageZero
     ChildList.nil [] 2 (["        * hello", "            kid"], []) (by decide)⟩
